import Mathlib

/-
Verification of the Light-Brands/base-ai repository against its design
specification.

The repository hosts a chat workspace in which an AI coding agent is run as a
subprocess against a working-directory checkout, streaming its output back to
the browser as server-sent events, with git status/commit/push reconciliation
afterwards.  The task execution pipeline itself is given in the repository as
the backend server handler embedded in docs/CLI-SDK-ROUTING-PLAN.md (the
app.post handler for the chat endpoint, lines 171-226 of that document); the
browser-side handlers live in app/workspace/[...repo]/page.tsx, and the
integration-cookie and add-column route/components live in the remaining
source files.  Each of those is shallowly embedded below as an executable
Lean function, and the specified properties are proved or refuted about the
embeddings.
-/

namespace BaseAI

/-! ### Conversation data model (server.ts in docs/CLI-SDK-ROUTING-PLAN.md)

A stored conversation is a list of role-tagged turns; the subprocess run is
recorded as the trace the Node event handlers observe: the ordered stdout
fragments, the ordered stderr fragments, and the exit code handed to the
close handler (none models a null code, i.e. killed by signal). -/

inductive Role
  | user
  | assistant
  deriving DecidableEq, Repr

structure Turn where
  role : Role
  content : String
  deriving DecidableEq, Repr

/-- The three SSE event shapes written by the handler:
data: \x7btype: chunk|done|error, ...\x7d lines. -/
inductive SSEEvent
  | chunk (content : String)
  | done (content : String)
  | errorMsg (message : String)
  deriving DecidableEq, Repr

def isChunkEv : SSEEvent → Bool
  | .chunk _ => true
  | _ => false

def isDoneEv : SSEEvent → Bool
  | .done _ => true
  | _ => false

def isErrorEv : SSEEvent → Bool
  | .errorMsg _ => true
  | _ => false

def isTerminal : SSEEvent → Bool
  | .chunk _ => false
  | .done _ => true
  | .errorMsg _ => true

def chunkContent : SSEEvent → Option String
  | .chunk s => some s
  | _ => none

/-- What the spawned subprocess does, as observed by the registered event
handlers: stdout data events in order, stderr data events in order, and the
exit code passed to the close handler (close fires after both stdio streams
have ended, so all data events precede it). -/
structure SubprocTrace where
  stdoutData : List String
  stderrData : List String
  exitCode : Option Int
  deriving DecidableEq, Repr

/-- The observable outcome of one run of the chat endpoint handler:
the SSE events written to the response in order, whether res.end was called,
the conversation record written to the database (none when no write
happened), and the stderr text passed to console.error. -/
structure ChatResult where
  events : List SSEEvent
  streamEnded : Bool
  savedHistory : Option (List Turn)
  loggedStderr : List String
  deriving DecidableEq, Repr

/-- A whitespace character as the JavaScript trim method sees it (the
ASCII part of the WhiteSpace and LineTerminator productions; the source
strings involved are ASCII). -/
def isJsSpace (c : Char) : Bool :=
  (c == ' ') || (c == '\t') || (c == '\n') || (c == '\r') ||
    (c == '\x0b') || (c == '\x0c')

/-- The JavaScript String trim method: strip leading and trailing
whitespace. -/
def jsTrim (s : String) : String :=
  String.mk (((s.data.dropWhile isJsSpace).reverse.dropWhile isJsSpace).reverse)

/-- Left-to-right concatenation of the stdout fragments, mirroring
responseContent += text. -/
def concatAll : List String → String
  | [] => ""
  | t :: rest => t ++ concatAll rest

/-- The stdout data handler, applied to each fragment in arrival order:
appends the fragment to responseContent and writes one chunk event. -/
def streamStdout (acc : String) (evs : List SSEEvent) :
    List String → String × List SSEEvent
  | [] => (acc, evs)
  | t :: rest => streamStdout (acc ++ t) (evs ++ [.chunk t]) rest

/-- The close handler: on exit code 0 it appends the assistant turn to the
history, persists it, and writes the done event carrying responseContent;
otherwise it writes the fixed error event and persists nothing. -/
def chatClose (history : List Turn) (responseContent : String) (code : Option Int) :
    SSEEvent × Option (List Turn) :=
  if code = some 0 then
    (.done responseContent, some (history ++ [⟨.assistant, responseContent⟩]))
  else
    (.errorMsg "Claude process failed", none)

/-- One full run of the chat endpoint handler for a request
(stored history of the session, new user message) against a subprocess that
behaved as tr: read stored messages, push the user turn, stream stdout as
chunk events, log stderr, and on close write the terminal event and end the
response. -/
def runChatHandler (stored : Option (List Turn)) (message : String)
    (tr : SubprocTrace) : ChatResult :=
  let history := (stored.getD []) ++ [⟨.user, message⟩]
  let streamed := streamStdout "" [] tr.stdoutData
  let closed := chatClose history streamed.1 tr.exitCode
  { events := streamed.2 ++ [closed.1]
    streamEnded := true
    savedHistory := closed.2
    loggedStderr := tr.stderrData }

/-- The options record passed to the spawn call for the agent subprocess.
The spawn call in the handler passes only an environment override
(NO_COLOR); in particular the child-process timeout option is not set. -/
structure SpawnConfig where
  command : String
  promptFlag : String
  envNoColor : Bool
  timeout : Option Nat
  deriving DecidableEq, Repr

def claudeSpawnConfig : SpawnConfig :=
  { command := "claude", promptFlag := "-p", envNoColor := true, timeout := none }

theorem streamStdout_eq (l : List String) : ∀ acc evs,
    streamStdout acc evs l = (acc ++ concatAll l, evs ++ l.map .chunk) := by
  induction l with
  | nil => intro acc evs; simp [streamStdout, concatAll]
  | cons t rest ih =>
      intro acc evs
      simp only [streamStdout, concatAll, ih, List.map_cons]
      rw [String.append_assoc]
      simp

theorem runChatHandler_events (stored : Option (List Turn)) (message : String)
    (tr : SubprocTrace) :
    (runChatHandler stored message tr).events =
      tr.stdoutData.map .chunk ++
        [(chatClose ((stored.getD []) ++ [⟨.user, message⟩])
            (concatAll tr.stdoutData) tr.exitCode).1] := by
  simp [runChatHandler, streamStdout_eq]

theorem chatClose_terminal (history : List Turn) (rc : String) (code : Option Int) :
    isTerminal (chatClose history rc code).1 = true := by
  unfold chatClose
  by_cases h : code = some 0 <;> simp [h, isTerminal]

/-- Claim C1: for every task, the event sequence delivered to the caller is
zero or more chunk events followed by exactly one terminal event (done xor
error: the done-count plus error-count over the whole sequence is one), no
event follows the terminal event (every event other than the last is a
chunk), and the response stream is closed immediately after it. -/
theorem chat_stream_events_shape (stored : Option (List Turn)) (message : String)
    (tr : SubprocTrace) :
    ((runChatHandler stored message tr).events.dropLast.all
        (fun e => isChunkEv e) = true) ∧
    ((runChatHandler stored message tr).events.countP (fun e => isDoneEv e) +
      (runChatHandler stored message tr).events.countP (fun e => isErrorEv e) = 1) ∧
    (∃ t, (runChatHandler stored message tr).events.getLast? = some t ∧
      isTerminal t = true) ∧
    (runChatHandler stored message tr).streamEnded = true := by
  rw [runChatHandler_events]
  set term := (chatClose ((stored.getD []) ++ [⟨.user, message⟩])
      (concatAll tr.stdoutData) tr.exitCode).1 with hterm
  have hT : isTerminal term = true := chatClose_terminal _ _ _
  refine ⟨?_, ?_, ?_, rfl⟩
  · rw [List.dropLast_concat]
    simp [List.all_eq_true, isChunkEv]
  · have hdone : (tr.stdoutData.map SSEEvent.chunk).countP (fun e => isDoneEv e) = 0 := by
      simp [List.countP_eq_zero, isDoneEv]
    have herr : (tr.stdoutData.map SSEEvent.chunk).countP (fun e => isErrorEv e) = 0 := by
      simp [List.countP_eq_zero, isErrorEv]
    rw [List.countP_append, List.countP_append, hdone, herr]
    rw [hterm]
    unfold chatClose
    by_cases h : tr.exitCode = some 0 <;>
      simp [h, List.countP, List.countP.go, isDoneEv, isErrorEv]
  · exact ⟨term, by simp, hT⟩

/-! ### Browser submit handler (app/workspace/[...repo]/page.tsx, handleSubmit)

handleSubmit returns early when the input trims to empty or when a request
is already in flight (the loading flag is set); otherwise it posts the
trimmed message to the chat endpoint.  The early return sends nothing and
surfaces no error. -/

inductive SubmitAction
  | send (message : String)
  | ignored
  deriving DecidableEq, Repr

def workspaceHandleSubmit (input : String) (loading : Bool) : SubmitAction :=
  if jsTrim input = "" ∨ loading then .ignored else .send (jsTrim input)

/-- Claim C2, counterexample: with a task in flight (loading set), a second
submission of the message hello is silently ignored by the client (it is
not sent, and no Busy failure is produced), and the server-side chat
handler, which keeps no in-flight task state at all, runs a second task for
a session that already has history unconditionally, emitting its full chunk
and done stream.  So a second task never fails with Busy. -/
theorem second_task_not_busy_counterexample :
    workspaceHandleSubmit "hello" true = .ignored ∧
    (runChatHandler (some [⟨Role.user, "first"⟩]) "second"
        ⟨["ok"], [], some 0⟩).events = [.chunk "ok", .done "ok"] := by
  constructor
  · unfold workspaceHandleSubmit
    rw [if_pos (Or.inr rfl)]
  · rfl

/-- Claim C2, amended: while a task is in flight the client-side submit
handler ignores every further submission (no request is sent and no Busy
error is surfaced), so a second task is not started from that page; the
server performs no per-session busy check and runs any submitted request
unconditionally to its terminal event (one event per stdout fragment plus
exactly one terminal event, for every request regardless of session
state). -/
theorem second_task_ignored_server_unguarded (input : String)
    (stored : Option (List Turn)) (message : String) (tr : SubprocTrace) :
    workspaceHandleSubmit input true = .ignored ∧
    (runChatHandler stored message tr).events.length = tr.stdoutData.length + 1 := by
  constructor
  · unfold workspaceHandleSubmit
    simp
  · rw [runChatHandler_events]
    simp

/-- Claim C4, counterexample: the spawn call for the agent subprocess sets
no timeout at all (the options record passed contains only the environment
override), so the executor does not have a strictly positive execution
timeout in this, its only, configuration. -/
theorem executor_timeout_counterexample : claudeSpawnConfig.timeout = none := rfl

/-- Claim C4, amended: the executor configures no execution timeout (the
spawn options carry none), so an agent subprocess that never exits is never
forcibly terminated by the executor; the only error message ever delivered
in the event stream is the generic failure message written on non-zero
exit, and no timeout-specific message exists. -/
theorem executor_no_timeout_generic_error (stored : Option (List Turn))
    (message : String) (tr : SubprocTrace) :
    claudeSpawnConfig.timeout = none ∧
    (runChatHandler stored message tr).events.all
      (fun e => match e with
        | .errorMsg m => m == "Claude process failed"
        | _ => true) = true := by
  refine ⟨rfl, ?_⟩
  rw [runChatHandler_events, List.all_append]
  simp only [Bool.and_eq_true]
  constructor
  · simp [List.all_eq_true]
  · unfold chatClose
    by_cases h : tr.exitCode = some 0 <;> simp [h]

/-- Claim C5: when the subprocess exits with success status, the done event
is the last event, its content is the in-order concatenation of the
contents of all previously emitted chunk events, and that same text is
appended to the stored conversation as the assistant turn (after the user
turn for the incoming message). -/
theorem chat_done_concatenation (stored : Option (List Turn)) (message : String)
    (tr : SubprocTrace) (h : tr.exitCode = some 0) :
    ∃ full,
      (runChatHandler stored message tr).events.getLast? = some (.done full) ∧
      full = concatAll
        ((runChatHandler stored message tr).events.filterMap chunkContent) ∧
      (runChatHandler stored message tr).savedHistory =
        some ((stored.getD []) ++ [⟨.user, message⟩, ⟨.assistant, full⟩]) := by
  refine ⟨concatAll tr.stdoutData, ?_, ?_, ?_⟩
  · rw [runChatHandler_events]
    unfold chatClose
    simp [h]
  · rw [runChatHandler_events]
    unfold chatClose
    simp only [h, if_pos rfl, List.filterMap_append, List.filterMap_map]
    simp [chunkContent, Function.comp_def]
  · unfold runChatHandler chatClose
    rw [streamStdout_eq]
    simp [h]

/-- Claim C5, witness: a concrete successful run with two stdout fragments
He and llo delivers done with content Hello and saves the user and
assistant turns. -/
theorem chat_done_concatenation_witness :
    (runChatHandler none "hi" ⟨["He", "llo"], [], some 0⟩).savedHistory =
      some [⟨.user, "hi"⟩, ⟨.assistant, "Hello"⟩] := by
  obtain ⟨full, h1, _h2, h3⟩ :=
    chat_done_concatenation none "hi" ⟨["He", "llo"], [], some 0⟩ rfl
  have hfull : full = "Hello" := by
    have : (runChatHandler none "hi" ⟨["He", "llo"], [], some 0⟩).events.getLast? =
        some (.done "Hello") := by rfl
    rw [this] at h1
    exact (SSEEvent.done.inj (Option.some.inj h1)).symm
  rw [hfull] at h3
  simpa using h3

/-- Claim C6: when the subprocess exits non-zero (or is killed), the caller
receives the fixed generic error event as terminal event, the database is
not written (the assistant turn is not saved), the stderr fragments are
only logged, and the delivered event stream is entirely independent of the
stderr text (changing stderr changes no event), so diagnostic output never
appears in any chunk or terminal event. -/
theorem chat_error_path (stored : Option (List Turn)) (message : String)
    (tr : SubprocTrace) (h : tr.exitCode ≠ some 0) :
    (runChatHandler stored message tr).events.getLast? =
      some (.errorMsg "Claude process failed") ∧
    (runChatHandler stored message tr).savedHistory = none ∧
    (runChatHandler stored message tr).loggedStderr = tr.stderrData ∧
    (∀ stderr2, (runChatHandler stored message
        { tr with stderrData := stderr2 }).events =
      (runChatHandler stored message tr).events) := by
  refine ⟨?_, ?_, rfl, ?_⟩
  · rw [runChatHandler_events]
    unfold chatClose
    simp [h]
  · unfold runChatHandler chatClose
    simp [h]
  · intro stderr2
    rw [runChatHandler_events, runChatHandler_events]

/-- Claim C6, witness: a concrete failing run (exit code 1 with stderr text)
emits the generic error event, saves nothing, and only logs the stderr. -/
theorem chat_error_path_witness :
    (runChatHandler none "hi" ⟨["part"], ["boom"], some 1⟩).events.getLast? =
      some (.errorMsg "Claude process failed") ∧
    (runChatHandler none "hi" ⟨["part"], ["boom"], some 1⟩).savedHistory = none := by
  have h := chat_error_path none "hi" ⟨["part"], ["boom"], some 1⟩ (by decide)
  exact ⟨h.1, h.2.1⟩

/-! ### Worker pool / admission controller -/

/-- The four ways a task can leave the system; a slot release accompanies
every one of them. -/
inductive ExitCause
  | success
  | failed
  | timedOut
  | cancelled
  deriving DecidableEq, Repr

inductive PoolEvent
  | acquire
  | terminate (c : ExitCause)
  deriving DecidableEq, Repr

/-- Modelled from the spec: the Worker Pool / Admission Controller of
section 4.2 and the AdmissionSlot of section 3 are described in the design
document but not implemented in any file under src/.  A slot is acquired
before subprocess launch (acquire) and released on task termination
regardless of the cause; the outstanding-slot count is the state. -/
def poolStep (outstanding : Nat) : PoolEvent → Nat
  | .acquire => outstanding + 1
  | .terminate _ => outstanding - 1

def runPool (outstanding : Nat) : List PoolEvent → Nat
  | [] => outstanding
  | e :: rest => runPool (poolStep outstanding e) rest

def acquireCount : List PoolEvent → Nat
  | [] => 0
  | .acquire :: rest => acquireCount rest + 1
  | .terminate _ :: rest => acquireCount rest

def termCount : List PoolEvent → Nat
  | [] => 0
  | .acquire :: rest => termCount rest
  | .terminate _ :: rest => termCount rest + 1

/-- A trace is admissible for pool size N when, at every point, no task has
been terminated before being started and the controller has never gone
beyond its N slots: terminations never outnumber admissions, and the
admission surplus never exceeds N, on every initial segment. -/
def balancedUpTo (N : Nat) (trace : List PoolEvent) : Bool :=
  (List.range (trace.length + 1)).all (fun n =>
    decide (termCount (trace.take n) ≤ acquireCount (trace.take n)) &&
    decide (acquireCount (trace.take n) - termCount (trace.take n) ≤ N))

theorem runPool_eq_counts : ∀ (trace : List PoolEvent) (out : Nat),
    (∀ n, n ≤ trace.length →
      termCount (trace.take n) ≤ out + acquireCount (trace.take n)) →
    runPool out trace = out + acquireCount trace - termCount trace := by
  intro trace
  induction trace with
  | nil => intro out _; simp [runPool, acquireCount, termCount]
  | cons e rest ih =>
      intro out h
      cases e with
      | acquire =>
          have hrest : ∀ n, n ≤ rest.length →
              termCount (rest.take n) ≤ (out + 1) + acquireCount (rest.take n) := by
            intro n hn
            have := h (n + 1) (by simpa using Nat.succ_le_succ hn)
            simp only [List.take_succ_cons, termCount, acquireCount] at this
            omega
          simp only [runPool, poolStep, acquireCount, termCount]
          rw [ih (out + 1) hrest]
          omega
      | terminate c =>
          have hout : 1 ≤ out := by
            have h1 := h 1 (by simp)
            simp only [List.take_succ_cons, List.take_zero, termCount, acquireCount] at h1
            omega
          have hrest : ∀ n, n ≤ rest.length →
              termCount (rest.take n) ≤ (out - 1) + acquireCount (rest.take n) := by
            intro n hn
            have := h (n + 1) (by simpa using Nat.succ_le_succ hn)
            simp only [List.take_succ_cons, termCount, acquireCount] at this
            omega
          simp only [runPool, poolStep, acquireCount, termCount]
          rw [ih (out - 1) hrest]
          omega

theorem balancedUpTo_spec {N : Nat} {trace : List PoolEvent}
    (h : balancedUpTo N trace = true) :
    ∀ n, n ≤ trace.length →
      termCount (trace.take n) ≤ acquireCount (trace.take n) ∧
      acquireCount (trace.take n) - termCount (trace.take n) ≤ N := by
  intro n hn
  unfold balancedUpTo at h
  rw [List.all_eq_true] at h
  have := h n (by rw [List.mem_range]; omega)
  simp only [Bool.and_eq_true, decide_eq_true_eq] at this
  exact this

/-- Claim C3: admission slots are conserved.  For every admissible trace of
the controller with pool size N: the outstanding slot count never exceeds N
at any point of the trace; a terminate event releases its slot
unconditionally, identically for every exit cause (success, error, timeout,
cancellation); and after any trace containing exactly N admissions and N
terminations in any order, the outstanding count is 0. -/
theorem admission_slot_conservation (N : Nat) (trace : List PoolEvent)
    (h : balancedUpTo N trace = true) :
    (∀ n, n ≤ trace.length → runPool 0 (trace.take n) ≤ N) ∧
    (∀ out c, poolStep out (.terminate c) = out - 1) ∧
    (acquireCount trace = N → termCount trace = N → runPool 0 trace = 0) := by
  have hspec := balancedUpTo_spec h
  have hrun : ∀ n, n ≤ trace.length →
      runPool 0 (trace.take n) =
        acquireCount (trace.take n) - termCount (trace.take n) := by
    intro n hn
    have : ∀ m, m ≤ (trace.take n).length →
        termCount ((trace.take n).take m) ≤ 0 + acquireCount ((trace.take n).take m) := by
      intro m hm
      rw [List.take_take]
      have hmn : min m n = m := by
        rw [List.length_take] at hm
        omega
      rw [hmn]
      have hml : m ≤ trace.length := by
        rw [List.length_take] at hm
        omega
      simpa using (hspec m hml).1
    simpa using runPool_eq_counts (trace.take n) 0 this
  refine ⟨?_, fun out c => rfl, ?_⟩
  · intro n hn
    rw [hrun n hn]
    exact (hspec n hn).2
  · intro ha ht
    have := hrun trace.length (le_refl _)
    rw [List.take_length] at this
    rw [this, ha, ht]
    omega

/-- Claim C3, witness: with pool size 2 and the admissible trace
acquire, acquire, terminate with success, terminate by timeout, the
outstanding slot count ends at 0. -/
theorem admission_slot_conservation_witness :
    runPool 0 [PoolEvent.acquire, PoolEvent.acquire,
      PoolEvent.terminate ExitCause.success,
      PoolEvent.terminate ExitCause.timedOut] = 0 := by
  exact (admission_slot_conservation 2
    [PoolEvent.acquire, PoolEvent.acquire,
      PoolEvent.terminate ExitCause.success,
      PoolEvent.terminate ExitCause.timedOut] (by decide)).2.2 (by decide) (by decide)

/-! ### Git commit (page.tsx handleCommit, and the commit route) -/

inductive CommitAction
  | request (message : String)
  | skip
  deriving DecidableEq, Repr

/-- handleCommit in app/workspace/[...repo]/page.tsx: returns early when the
commit message trims to empty, otherwise posts the (untrimmed) message to
the commit route. -/
def handleCommit (commitMessage : String) : CommitAction :=
  if jsTrim commitMessage = "" then .skip else .request commitMessage

structure WorkingDirState where
  pendingChanges : List String
  deriving DecidableEq, Repr

inductive CommitOutcome
  | committed
  | emptyMessage
  | nothingToCommit
  | gitFailed
  deriving DecidableEq, Repr

/-- Modelled from the spec: the server-side commit route behind
/api/workspace/git/commit (the Git State Synchronizer commitAll of section
4.5) is not present under src/; only its caller handleCommit is.  Per the
spec, commitAll fails without partial effect if there is nothing to commit,
if the message is empty, or if the underlying version-control command
reports a non-zero exit; only on success are the pending changes committed
(cleared from the working set).  The exit code of the underlying command is
passed in as an oracle. -/
def commitAll (st : WorkingDirState) (message : String) (gitExitCode : Int) :
    CommitOutcome × WorkingDirState :=
  if jsTrim message = "" then (.emptyMessage, st)
  else if st.pendingChanges = [] then (.nothingToCommit, st)
  else if gitExitCode ≠ 0 then (.gitFailed, st)
  else (.committed, { pendingChanges := [] })

/-- Claim C7: commitAll fails without any partial effect on the working
directory whenever it rejects: every non-committed outcome leaves the state
unchanged; an empty or all-whitespace message yields the emptyMessage
failure (a no-op on rejection); an empty change set and a non-zero
version-control exit each force a failure; and the client-side handleCommit
never even issues the request for an empty or all-whitespace message. -/
theorem commitAll_rejection_no_effect (st : WorkingDirState) (message : String)
    (gitExitCode : Int) :
    ((commitAll st message gitExitCode).1 ≠ .committed →
      (commitAll st message gitExitCode).2 = st) ∧
    (jsTrim message = "" →
      commitAll st message gitExitCode = (.emptyMessage, st) ∧
      handleCommit message = .skip) ∧
    (st.pendingChanges = [] → (commitAll st message gitExitCode).1 ≠ .committed) ∧
    (gitExitCode ≠ 0 → (commitAll st message gitExitCode).1 ≠ .committed) := by
  unfold commitAll handleCommit
  by_cases h1 : jsTrim message = ""
  · simp [h1]
  · by_cases h2 : st.pendingChanges = []
    · simp [h1, h2]
    · by_cases h3 : gitExitCode ≠ 0
      · simp [h1, h2, h3]
      · simp [h1, h2, h3]

/-- Claim C7, witness: with one pending change, a whitespace-only message is
rejected as emptyMessage with the state unchanged and no request issued,
and a non-zero git exit under a real message also leaves the state
unchanged. -/
theorem commitAll_rejection_no_effect_witness :
    commitAll ⟨["a.txt"]⟩ "  " 0 = (.emptyMessage, ⟨["a.txt"]⟩) ∧
    handleCommit "  " = .skip ∧
    (commitAll ⟨["a.txt"]⟩ "fix" 1).2 = ⟨["a.txt"]⟩ := by
  have h1 := (commitAll_rejection_no_effect ⟨["a.txt"]⟩ "  " 0).2.1 (by decide)
  have h2 := (commitAll_rejection_no_effect ⟨["a.txt"]⟩ "fix" 1).1 (by decide)
  exact ⟨h1.1, h1.2, h2⟩

/-! ### Repo integrations cookie store (the integrations route file)

The route keeps a map from repository full name to an integration record
with optional vercel and supabase links, serialized as JSON in the
repo_integrations cookie.  The map is embedded as an association list; the
external JSON.parse call is passed in as a function returning none when
parsing throws. -/

structure VercelLink where
  projectId : String
  projectName : String
  deriving DecidableEq, Repr

structure SupabaseLink where
  projectRef : String
  projectName : String
  deriving DecidableEq, Repr

structure RepoIntegration where
  vercel : Option VercelLink
  supabase : Option SupabaseLink
  deriving DecidableEq, Repr

def emptyIntegration : RepoIntegration := { vercel := none, supabase := none }

/-- A record with no keys, as tested by Object.keys length zero. -/
def isEmptyIntegration (v : RepoIntegration) : Bool :=
  v.vercel.isNone && v.supabase.isNone

abbrev RepoIntegrations := List (String × RepoIntegration)

def lookupRepo : RepoIntegrations → String → Option RepoIntegration
  | [], _ => none
  | (k, v) :: rest, r => if k = r then some v else lookupRepo rest r

def setRepo : RepoIntegrations → String → RepoIntegration → RepoIntegrations
  | [], r, v => [(r, v)]
  | (k, w) :: rest, r, v =>
      if k = r then (k, v) :: rest else (k, w) :: setRepo rest r v

def eraseRepo : RepoIntegrations → String → RepoIntegrations
  | [], _ => []
  | (k, w) :: rest, r =>
      if k = r then eraseRepo rest r else (k, w) :: eraseRepo rest r

/-- getRepoIntegrations: read the repo_integrations cookie; when it is
absent or empty the falsy guard returns the empty map, and when JSON.parse
throws the catch returns the empty map. -/
def getRepoIntegrations (parse : String → Option RepoIntegrations)
    (cookie : Option String) : RepoIntegrations :=
  match cookie with
  | none => []
  | some s => if s = "" then [] else (parse s).getD []

/-- The observable outcome of the POST and DELETE route handlers: the HTTP
status and, when setRepoIntegrations ran, the map serialized into the
Set-Cookie header. -/
structure ApiResponse where
  status : Nat
  setCookie : Option RepoIntegrations
  deriving DecidableEq, Repr

/-- A POST body field for one service: outer none when the key is absent
from the body, some none for an explicit null (delete the link), some
(some v) for a new link value. -/
def applyUpdate {α : Type} (cur : Option α) (upd : Option (Option α)) : Option α :=
  match upd with
  | none => cur
  | some none => none
  | some (some v) => some v

structure PostBody where
  repo : Option String
  vercel : Option (Option VercelLink)
  supabase : Option (Option SupabaseLink)
  deriving DecidableEq, Repr

/-- The POST handler: 400 when the body does not parse or repo is falsy;
otherwise start from the existing record (or a fresh empty one), apply the
vercel and supabase updates, drop the entry when it ends up with no keys,
and persist the new map in the cookie. -/
def POST_integrations (parse : String → Option RepoIntegrations)
    (cookie : Option String) (body : Option PostBody) : ApiResponse :=
  match body with
  | none => { status := 400, setCookie := none }
  | some b =>
    match b.repo with
    | none => { status := 400, setCookie := none }
    | some repo =>
      if repo = "" then { status := 400, setCookie := none }
      else
        let integrations := getRepoIntegrations parse cookie
        let entry0 := (lookupRepo integrations repo).getD emptyIntegration
        let entry : RepoIntegration :=
          { vercel := applyUpdate entry0.vercel b.vercel
            supabase := applyUpdate entry0.supabase b.supabase }
        let integrations2 :=
          if isEmptyIntegration entry then eraseRepo integrations repo
          else setRepo integrations repo entry
        { status := 200, setCookie := some integrations2 }

structure DeleteBody where
  repo : Option String
  service : Option String
  deriving DecidableEq, Repr

/-- The DELETE handler: 400 when the body does not parse, when repo or
service is falsy, or when service names neither vercel nor supabase;
otherwise remove that service from the entry if the repo has one, drop the
entry when it ends up with no keys, and persist the map in the cookie. -/
def DELETE_integrations (parse : String → Option RepoIntegrations)
    (cookie : Option String) (body : Option DeleteBody) : ApiResponse :=
  match body with
  | none => { status := 400, setCookie := none }
  | some b =>
    match b.repo, b.service with
    | some repo, some service =>
      if repo = "" ∨ service = "" then { status := 400, setCookie := none }
      else if service ≠ "vercel" ∧ service ≠ "supabase" then
        { status := 400, setCookie := none }
      else
        let integrations := getRepoIntegrations parse cookie
        let integrations2 :=
          match lookupRepo integrations repo with
          | none => integrations
          | some entry0 =>
            let entry : RepoIntegration :=
              if service = "vercel" then { entry0 with vercel := none }
              else { entry0 with supabase := none }
            if isEmptyIntegration entry then eraseRepo integrations repo
            else setRepo integrations repo entry
        { status := 200, setCookie := some integrations2 }
    | _, _ => { status := 400, setCookie := none }

/-- The GET handler: with a repo query parameter it returns that repo
record (or an empty record), otherwise the whole map; it always produces a
JSON response. -/
inductive GetResponse
  | allIntegrations (m : RepoIntegrations)
  | oneRepo (v : RepoIntegration)
  deriving DecidableEq, Repr

def GET_integrations (parse : String → Option RepoIntegrations)
    (cookie : Option String) (repoParam : Option String) : GetResponse :=
  let integrations := getRepoIntegrations parse cookie
  match repoParam with
  | some r =>
      if r = "" then .allIntegrations integrations
      else .oneRepo ((lookupRepo integrations r).getD emptyIntegration)
  | none => .allIntegrations integrations

/-- No persisted repository key maps to a record with no services set. -/
def integrationsInvB (m : RepoIntegrations) : Bool :=
  m.all (fun p => !(isEmptyIntegration p.2))

theorem mem_setRepo {m : RepoIntegrations} {r : String} {v : RepoIntegration}
    {p : String × RepoIntegration} (h : p ∈ setRepo m r v) :
    p = (r, v) ∨ p ∈ m ∨ p.2 = v := by
  induction m with
  | nil =>
      simp [setRepo] at h
      exact Or.inl h
  | cons q rest ih =>
      obtain ⟨k, w⟩ := q
      unfold setRepo at h
      by_cases hk : k = r
      · simp only [if_pos hk] at h
        rcases List.mem_cons.mp h with h1 | h1
        · exact Or.inr (Or.inr (by rw [h1]))
        · exact Or.inr (Or.inl (List.mem_cons_of_mem _ h1))
      · simp only [if_neg hk] at h
        rcases List.mem_cons.mp h with h1 | h1
        · exact Or.inr (Or.inl (by rw [h1]; exact List.mem_cons_self _ _))
        · rcases ih h1 with h2 | h2 | h2
          · exact Or.inl h2
          · exact Or.inr (Or.inl (List.mem_cons_of_mem _ h2))
          · exact Or.inr (Or.inr h2)

theorem mem_eraseRepo {m : RepoIntegrations} {r : String}
    {p : String × RepoIntegration} (h : p ∈ eraseRepo m r) : p ∈ m := by
  induction m with
  | nil => simp [eraseRepo] at h
  | cons q rest ih =>
      obtain ⟨k, w⟩ := q
      unfold eraseRepo at h
      by_cases hk : k = r
      · simp only [if_pos hk] at h
        exact List.mem_cons_of_mem _ (ih h)
      · simp only [if_neg hk] at h
        rcases List.mem_cons.mp h with h1 | h1
        · exact h1 ▸ List.mem_cons_self _ _
        · exact List.mem_cons_of_mem _ (ih h1)

theorem integrationsInvB_eraseRepo {m : RepoIntegrations} {r : String}
    (h : integrationsInvB m = true) : integrationsInvB (eraseRepo m r) = true := by
  rw [integrationsInvB, List.all_eq_true] at h ⊢
  intro p hp
  exact h p (mem_eraseRepo hp)

theorem integrationsInvB_setRepo {m : RepoIntegrations} {r : String}
    {v : RepoIntegration} (h : integrationsInvB m = true)
    (hv : isEmptyIntegration v = false) :
    integrationsInvB (setRepo m r v) = true := by
  rw [integrationsInvB, List.all_eq_true] at h ⊢
  intro p hp
  rcases mem_setRepo hp with h1 | h1 | h1
  · rw [h1]; simp [hv]
  · exact h p h1
  · simp [h1, hv]

/-- Claim C8: the store keeps the no-empty-record invariant.  If every
entry of the incoming persisted map has at least one of the vercel or
supabase services set, then after any run of the POST handler and after any
run of the DELETE handler, every entry of the map persisted in the
Set-Cookie header again has at least one service set (entries whose last
service is removed are deleted entirely, never left empty). -/
theorem integrations_inv_preserved (parse : String → Option RepoIntegrations)
    (cookie : Option String) (pbody : Option PostBody) (dbody : Option DeleteBody)
    (hinv : integrationsInvB (getRepoIntegrations parse cookie) = true) :
    (∀ m, (POST_integrations parse cookie pbody).setCookie = some m →
      integrationsInvB m = true) ∧
    (∀ m, (DELETE_integrations parse cookie dbody).setCookie = some m →
      integrationsInvB m = true) := by
  constructor
  · intro m hm
    unfold POST_integrations at hm
    match pbody with
    | none => simp at hm
    | some b =>
      match hrepo : b.repo with
      | none => simp [hrepo] at hm
      | some repo =>
        simp only [hrepo] at hm
        by_cases hre : repo = ""
        · simp [hre] at hm
        · simp only [if_neg hre] at hm
          set entry : RepoIntegration :=
            { vercel := applyUpdate ((lookupRepo (getRepoIntegrations parse cookie)
                  repo).getD emptyIntegration).vercel b.vercel
              supabase := applyUpdate ((lookupRepo (getRepoIntegrations parse cookie)
                  repo).getD emptyIntegration).supabase b.supabase } with hentry
          by_cases he : isEmptyIntegration entry
          · simp only [if_pos he] at hm
            obtain rfl : eraseRepo (getRepoIntegrations parse cookie) repo = m :=
              Option.some.inj hm
            exact integrationsInvB_eraseRepo hinv
          · simp only [if_neg he] at hm
            obtain rfl : setRepo (getRepoIntegrations parse cookie) repo entry = m :=
              Option.some.inj hm
            exact integrationsInvB_setRepo hinv (by simpa using he)
  · intro m hm
    unfold DELETE_integrations at hm
    match dbody with
    | none => simp at hm
    | some b =>
      match hrepo : b.repo, hserv : b.service with
      | none, none => simp [hrepo, hserv] at hm
      | none, some s => simp [hrepo, hserv] at hm
      | some r, none => simp [hrepo, hserv] at hm
      | some repo, some service =>
        simp only [hrepo, hserv] at hm
        by_cases hre : repo = "" ∨ service = ""
        · simp [if_pos hre] at hm
        · simp only [if_neg hre] at hm
          by_cases hsv : service ≠ "vercel" ∧ service ≠ "supabase"
          · simp [if_pos hsv] at hm
          · simp only [if_neg hsv] at hm
            match hl : lookupRepo (getRepoIntegrations parse cookie) repo with
            | none =>
                simp only [hl] at hm
                obtain rfl : getRepoIntegrations parse cookie = m :=
                  Option.some.inj hm
                exact hinv
            | some entry0 =>
                simp only [hl] at hm
                set entry : RepoIntegration :=
                  if service = "vercel" then { entry0 with vercel := none }
                  else { entry0 with supabase := none } with hentry
                by_cases he : isEmptyIntegration entry
                · simp only [if_pos he] at hm
                  obtain rfl : eraseRepo (getRepoIntegrations parse cookie) repo = m :=
                    Option.some.inj hm
                  exact integrationsInvB_eraseRepo hinv
                · simp only [if_neg he] at hm
                  obtain rfl : setRepo (getRepoIntegrations parse cookie) repo entry = m :=
                    Option.some.inj hm
                  exact integrationsInvB_setRepo hinv (by simpa using he)

/-- Claim C8, witness: starting from an empty cookie store, a POST linking
repo a to a vercel project persists a map satisfying the invariant, and a
DELETE of the supabase service of an absent repo also persists a map
satisfying the invariant. -/
theorem integrations_inv_preserved_witness :
    integrationsInvB [("a", ⟨some ⟨"p1", "proj"⟩, none⟩)] = true ∧
    integrationsInvB ([] : RepoIntegrations) = true := by
  have h := integrations_inv_preserved (fun _ => none) none
    (some { repo := some "a", vercel := some (some ⟨"p1", "proj"⟩), supabase := none })
    (some { repo := some "b", service := some "supabase" }) (by decide)
  exact ⟨h.1 [("a", ⟨some ⟨"p1", "proj"⟩, none⟩)] rfl, h.2 [] rfl⟩

/-- Claim C9: reading the repo_integrations cookie is total.  Whenever the
cookie is absent, present but empty, or present with text on which
JSON.parse throws, getRepoIntegrations returns the empty map rather than
propagating a fault, and the GET handler then returns the well-formed empty
integrations object (the whole-map response with the empty map, or the
empty record for a specific repo). -/
theorem getRepoIntegrations_total (parse : String → Option RepoIntegrations)
    (cookie : Option String)
    (h : cookie = none ∨ cookie = some "" ∨
      ∃ s, cookie = some s ∧ parse s = none) :
    getRepoIntegrations parse cookie = [] ∧
    GET_integrations parse cookie none = .allIntegrations [] ∧
    ∀ r, r ≠ "" → GET_integrations parse cookie (some r) = .oneRepo emptyIntegration := by
  have hget : getRepoIntegrations parse cookie = [] := by
    rcases h with h | h | ⟨s, hs, hp⟩
    · rw [h]; rfl
    · rw [h]; rfl
    · rw [hs]
      unfold getRepoIntegrations
      by_cases he : s = ""
      · simp [he]
      · simp [he, hp]
  refine ⟨hget, ?_, ?_⟩
  · unfold GET_integrations
    rw [hget]
  · intro r hr
    unfold GET_integrations
    rw [hget]
    simp [hr, lookupRepo]

/-- Claim C9, witness: a cookie holding text that JSON.parse rejects yields
the empty map and the empty GET responses. -/
theorem getRepoIntegrations_total_witness :
    getRepoIntegrations (fun _ => none) (some "not json") = [] ∧
    GET_integrations (fun _ => none) (some "not json") (some "a") =
      .oneRepo emptyIntegration := by
  have h := getRepoIntegrations_total (fun _ => none) (some "not json")
    (Or.inr (Or.inr ⟨"not json", rfl, rfl⟩))
  exact ⟨h.1, h.2.2 "a" (by decide)⟩

/-! ### Add-column modal (AddColumnModal component, handleSubmit)

The submit handler validates the column name: it must trim to a non-empty
identifier matching the anchored pattern of a letter or underscore followed
by letters, digits, or underscores; only then is the onAdd callback invoked,
with the trimmed name (and trimmed default value). -/

structure ColumnDefinition where
  name : String
  type : String
  nullable : Bool
  defaultValue : String
  deriving DecidableEq, Repr

inductive ColumnSubmitResult
  | added (c : ColumnDefinition)
  | invalid (err : String)
  deriving DecidableEq, Repr

def isIdentStart (c : Char) : Bool :=
  (('a' ≤ c) && (c ≤ 'z')) || (('A' ≤ c) && (c ≤ 'Z')) || (c == '_')

def isIdentChar (c : Char) : Bool :=
  isIdentStart c || (('0' ≤ c) && (c ≤ '9'))

/-- The anchored test of the column-name pattern: non-empty, first
character a letter or underscore, all remaining characters letters, digits,
or underscores. -/
def matchesIdent (s : String) : Bool :=
  match s.data with
  | [] => false
  | c :: rest => isIdentStart c && rest.all isIdentChar

/-- handleSubmit of AddColumnModal: reject an empty trimmed name, reject a
trimmed name failing the identifier test, and otherwise invoke onAdd with
the trimmed name, the selected type, the nullable flag, and the trimmed
default value. -/
def addColumnSubmit (name type : String) (nullable : Bool)
    (defaultValue : String) : ColumnSubmitResult :=
  if jsTrim name = "" then .invalid "Column name is required"
  else if !(matchesIdent (jsTrim name)) then
    .invalid "Column name must start with a letter or underscore and contain only letters, numbers, and underscores"
  else .added ⟨jsTrim name, type, nullable, jsTrim defaultValue⟩

theorem matchesIdent_empty_false : matchesIdent "" = false := rfl

/-- Claim C10: the add-column submit handler invokes onAdd exactly when the
trimmed column name matches the identifier pattern (non-empty, starting
with a letter or underscore, containing only letters, digits, and
underscores); in that case the column passed to onAdd carries the trimmed
name; for any other input it produces an error message and does not invoke
onAdd. -/
theorem addColumn_submit_iff_ident (name type : String) (nullable : Bool)
    (defaultValue : String) :
    (matchesIdent (jsTrim name) = true →
      addColumnSubmit name type nullable defaultValue =
        .added ⟨jsTrim name, type, nullable, jsTrim defaultValue⟩) ∧
    (matchesIdent (jsTrim name) = false →
      ∃ err, addColumnSubmit name type nullable defaultValue = .invalid err) := by
  unfold addColumnSubmit
  constructor
  · intro h
    have hne : ¬ jsTrim name = "" := by
      intro he
      rw [he, matchesIdent_empty_false] at h
      exact Bool.false_ne_true h
    simp [hne, h]
  · intro h
    by_cases he : jsTrim name = ""
    · exact ⟨"Column name is required", by simp [he]⟩
    · exact ⟨"Column name must start with a letter or underscore and contain only letters, numbers, and underscores", by simp [he, h]⟩

/-- Claim C10, witness: a name that trims to the valid identifier col_1 is
added with the trimmed name, and the name 1col (starting with a digit) is
rejected with an error. -/
theorem addColumn_submit_iff_ident_witness :
    addColumnSubmit " col_1 " "text" true "" =
      .added ⟨"col_1", "text", true, ""⟩ ∧
    ∃ err, addColumnSubmit "1col" "text" true "" = .invalid err := by
  constructor
  · exact (addColumn_submit_iff_ident " col_1 " "text" true "").1 (by decide)
  · exact (addColumn_submit_iff_ident "1col" "text" true "").2 (by decide)

end BaseAI
